import Mathlib

/-!
Verification development for the parallel multi-agent execution engine of the
`tusimreport` repository (`core/streamlit_parallel_engine.py`, entry path
`main.py:run_parallel_analysis`).

The Python code is shallowly embedded as follows:
* Python `dict`s keyed by agent name become association lists
  (`List (String × α)`) with first-match lookup, insert-or-overwrite
  assignment (`dictSet`, modelling `d[k] = v`) and merge-update of an existing
  entry (`dictUpdate`, modelling `d[k].update({...})`).
* Streamlit session state becomes an explicit `SessionState` record whose
  fields are `Option`s (a `none` field models a key absent from
  `st.session_state`).
* Each externally supplied agent handle is a function from the request text to
  an `InvokeOutcome` (it either raises, modelled by `.raises msg` where `msg`
  is `str(e)`, or returns a result dict whose `messages` entry is modelled by
  `Option (List String)`: `none` = missing key, `some []` = empty list), plus
  the wall-clock duration in seconds of the underlying invocation.
* `datetime.now()` becomes a logical clock (`Nat`) threaded through the run.
* `concurrent.futures.as_completed` yields futures in completion order; that
  order is passed in as an explicit `order : List String`, constrained in the
  theorems to be a permutation of the submitted agents.
* Exceptions become `Except String`; the value carried is `str(e)`.
-/

/-! ### Association-list model of Python dicts -/

def dictGet {α : Type} (m : List (String × α)) (k : String) : Option α :=
  match m with
  | [] => none
  | (k', v) :: rest => if k' = k then some v else dictGet rest k

def dictHas {α : Type} (m : List (String × α)) (k : String) : Bool :=
  (dictGet m k).isSome

/-- `d[k] = v`: overwrite the entry if the key exists, else append it. -/
def dictSet {α : Type} (m : List (String × α)) (k : String) (v : α) :
    List (String × α) :=
  match m with
  | [] => [(k, v)]
  | (k', v') :: rest => if k' = k then (k, v) :: rest else (k', v') :: dictSet rest k v

/-- `d[k].update({...})`: modify the value at an existing key in place.
The engine only ever updates keys that were pre-allocated at run start. -/
def dictUpdate {α : Type} (m : List (String × α)) (k : String) (f : α → α) :
    List (String × α) :=
  match m with
  | [] => []
  | (k', v') :: rest => if k' = k then (k', f v') :: rest else (k', v') :: dictUpdate rest k f

/-! ### Python string primitives used by the engine -/

/-- Is `pat` a prefix of `txt`? (char-list level) -/
def subAt : List Char → List Char → Bool
  | [], _ => true
  | _ :: _, [] => false
  | p :: ps, t :: ts => (p = t) && subAt ps ts

/-- Does `pat` occur as a contiguous substring of `txt`? (char-list level) -/
def subIn (pat : List Char) : List Char → Bool
  | [] => pat.isEmpty
  | t :: ts => subAt pat (t :: ts) || subIn pat ts

/-- Python `pattern in content` for strings (substring containment). -/
def strContains (content pattern : String) : Bool :=
  subIn pattern.data content.data

/-- Drop leading whitespace characters. -/
def dropWs : List Char → List Char
  | [] => []
  | c :: rest => if c.isWhitespace then dropWs rest else c :: rest

/-- Python `str.strip()`: remove leading and trailing whitespace. -/
def pyStrip (s : String) : String :=
  ⟨(dropWs (dropWs s.data.reverse)).reverse⟩

/-- Number of whitespace-separated tokens, scanning with an in-token flag. -/
def tokCount : List Char → Bool → Nat
  | [], _ => 0
  | c :: rest, inTok =>
    if c.isWhitespace then tokCount rest false
    else (if inTok then 0 else 1) + tokCount rest true

/-- Python `len(s.split())`: count of whitespace-delimited tokens. -/
def pyTokenCount (s : String) : Nat :=
  tokCount s.data false

/-! ### Data model -/

/-- One entry of `st.session_state.parallel_progress`
(`{'status', 'progress', 'start_time', 'end_time', 'error'}`). -/
structure TaskProgress where
  status : String
  progress : Nat
  start_time : Option Nat
  end_time : Option Nat
  error : Option String
deriving DecidableEq, Repr

/-- The result dict returned by `_execute_single_agent_with_context`. -/
structure AgentResult where
  agent_name : String
  content : String
  token_count : Nat
  execution_time : Nat
  status : String
deriving DecidableEq, Repr

/-- Outcome of `agent.invoke({...})`: either the call raises, or it returns a
result dict whose `messages` entry is `none` (key absent), `some []`
(empty list) or a non-empty list of message contents. -/
inductive InvokeOutcome where
  | raises (msg : String)
  | returns (messages : Option (List String))

/-- An externally supplied agent handle: its behaviour on a request text, plus
the wall-clock duration (seconds) of the underlying invocation. The duration
is what the 300-second collection timeout is supposed to bound. -/
structure AgentHandle where
  behavior : String → InvokeOutcome
  duration : Nat

def Handles : Type := List (String × AgentHandle)

/-- The Streamlit session-state keys the engine reads and writes.
A `none` field models the key being absent from `st.session_state`. -/
structure SessionState where
  parallel_results : Option (List (String × AgentResult))
  parallel_progress : Option (List (String × TaskProgress))
  parallel_errors : Option (List (String × String))
  parallel_execution_started : Option Bool
  parallel_execution_completed : Option Bool
deriving DecidableEq, Repr

/-- A brand-new session: none of the keys exist yet. -/
def freshSession : SessionState :=
  { parallel_results := none, parallel_progress := none, parallel_errors := none,
    parallel_execution_started := none, parallel_execution_completed := none }

/-! ### Agent registry (`self.agent_config`, `_create_agent_request`,
`_get_completion_signal`) -/

/-- Keys of `self.agent_config`, in insertion order. -/
def agentConfig : List String :=
  ["context_expert", "sentiment_expert", "financial_expert",
   "advanced_technical_expert", "institutional_trading_expert",
   "comparative_expert", "esg_expert", "community_expert"]

/-- `_create_agent_request`: per-agent request text, with
`base_requests.get(agent_name, default)` falling back to a generic request. -/
def _create_agent_request (agent_name stock_code company_name : String) : String :=
  if agent_name = "context_expert" then
    "종목 " ++ stock_code ++ " (" ++ company_name ++ ")에 대한 시장 환경 및 거시경제 분석을 수행해주세요."
  else if agent_name = "sentiment_expert" then
    "종목 " ++ stock_code ++ " (" ++ company_name ++ ")에 대한 뉴스 및 시장 심리 분석을 수행해주세요."
  else if agent_name = "financial_expert" then
    "종목 " ++ stock_code ++ " (" ++ company_name ++ ")에 대한 재무제표 및 기업 분석을 수행해주세요."
  else if agent_name = "advanced_technical_expert" then
    "종목 " ++ stock_code ++ " (" ++ company_name ++ ")에 대한 고급 기술적 분석을 수행해주세요."
  else if agent_name = "institutional_trading_expert" then
    "종목 " ++ stock_code ++ " (" ++ company_name ++ ")에 대한 기관 수급 분석을 수행해주세요."
  else if agent_name = "comparative_expert" then
    "종목 " ++ stock_code ++ " (" ++ company_name ++ ")에 대한 동종업계 상대 평가를 수행해주세요."
  else if agent_name = "esg_expert" then
    "종목 " ++ stock_code ++ " (" ++ company_name ++ ")에 대한 ESG 및 지속가능성 분석을 수행해주세요."
  else if agent_name = "community_expert" then
    "종목 " ++ stock_code ++ " (" ++ company_name ++ ")에 대한 커뮤니티 여론 분석을 수행해주세요."
  else
    "종목 " ++ stock_code ++ "에 대한 분석을 수행해주세요."

/-- `_get_completion_signal`: per-agent completion marker, `""` for unknown. -/
def _get_completion_signal (agent_name : String) : String :=
  if agent_name = "context_expert" then "MARKET_CONTEXT_ANALYSIS_COMPLETE"
  else if agent_name = "sentiment_expert" then "SENTIMENT_ANALYSIS_COMPLETE"
  else if agent_name = "financial_expert" then "FINANCIAL_ANALYSIS_COMPLETE"
  else if agent_name = "advanced_technical_expert" then "ADVANCED_TECHNICAL_ANALYSIS_COMPLETE"
  else if agent_name = "institutional_trading_expert" then "INSTITUTIONAL_TRADING_ANALYSIS_COMPLETE"
  else if agent_name = "comparative_expert" then "COMPARATIVE_ANALYSIS_COMPLETE"
  else if agent_name = "esg_expert" then "ESG_ANALYSIS_COMPLETE"
  else if agent_name = "community_expert" then "COMMUNITY_ANALYSIS_COMPLETE"
  else ""

/-! ### Task executor (`_execute_single_agent_with_context`) -/

/-- Lines 209-212: `if completion_signal and completion_signal not in content:
content = content.strip() + "\n\n" + completion_signal`. -/
def markerStep (agent_name content : String) : String :=
  let completion_signal := _get_completion_signal agent_name
  if completion_signal ≠ "" ∧ strContains content completion_signal = false then
    pyStrip content ++ "\n\n" ++ completion_signal
  else
    content

/-- `_execute_single_agent_with_context`: look up the handle (raising if it is
missing/falsy), build the request, invoke the handle, and on a non-empty
`messages` list normalise the last message's content, run the marker step and
return the result dict; a missing or empty `messages` list raises the
empty-response `ValueError`. The surrounding `try/except` logs and re-raises
(`raise e`), so every exception propagates to the caller unchanged. -/
def _execute_single_agent_with_context (agents : Handles)
    (agent_name stock_code company_name : String) (clock : Nat) :
    Except String AgentResult :=
  match dictGet agents agent_name with
  | none => Except.error ("에이전트를 찾을 수 없음: " ++ agent_name)
  | some agent =>
    let analysis_request := _create_agent_request agent_name stock_code company_name
    match agent.behavior analysis_request with
    | InvokeOutcome.raises msg => Except.error msg
    | InvokeOutcome.returns none => Except.error ("에이전트 응답이 비어있음: " ++ agent_name)
    | InvokeOutcome.returns (some []) => Except.error ("에이전트 응답이 비어있음: " ++ agent_name)
    | InvokeOutcome.returns (some (m :: rest)) =>
      let content := (m :: rest).getLast (List.cons_ne_nil m rest)
      let content := markerStep agent_name content
      Except.ok
        { agent_name := agent_name, content := content,
          token_count := pyTokenCount content,
          execution_time := clock, status := "success" }

/-! ### Parallel scheduler (`execute_agents_parallel`) -/

/-- `initialize_session_state` (lines 54-67): each session-state key is
created with its default only if it does not already exist; existing values
are preserved. -/
def init_session_state (s : SessionState) : SessionState :=
  { parallel_results := some (s.parallel_results.getD []),
    parallel_progress := some (s.parallel_progress.getD []),
    parallel_errors := some (s.parallel_errors.getD []),
    parallel_execution_started := some (s.parallel_execution_started.getD false),
    parallel_execution_completed := some (s.parallel_execution_completed.getD false) }

/-- The fresh per-agent progress entry written at run start (lines 80-87). -/
def waitingProgress : TaskProgress :=
  { status := "waiting", progress := 0, start_time := none, end_time := none, error := none }

/-- Lines 80-87: `parallel_progress[agent_name] = {waiting entry}` for every
configured agent, in catalog order (sequential loop over the catalog). -/
def init_progress_map : List String → List (String × TaskProgress) →
    List (String × TaskProgress)
  | [], m => m
  | a :: rest, m => init_progress_map rest (dictSet m a waitingProgress)

/-- Lines 105-106: mark a pre-allocated entry as `starting` and stamp
`start_time`, leaving its other fields in place. -/
def startingMark (clock : Nat) (p : TaskProgress) : TaskProgress :=
  { p with status := "starting", start_time := some clock }

/-- Submission loop (lines 100-118): for each configured agent, if it has a
handle in `self.agents`, mark it `starting` and submit its task; agents
without a handle are only logged and left `waiting`. -/
def submit_fold (agents : Handles) : List String →
    List (String × TaskProgress) × Nat → List (String × TaskProgress) × Nat
  | [], mc => mc
  | a :: rest, mc =>
    submit_fold agents rest
      (if dictHas agents a then (dictUpdate mc.1 a (startingMark mc.2), mc.2 + 1) else mc)

/-- The agents actually submitted to the pool (`future_to_agent.values()`):
the configured agents that have a handle, in catalog order. -/
def submittedAgents (config : List String) (agents : Handles) : List String :=
  config.filter (fun a => dictHas agents a)

/-- Semantics of `future.result(timeout)` at line 134: the future was yielded
by `as_completed`, which only yields finished futures, so `doneAtCall` is
`true` at the call site and the timeout cannot elapse; it would only fire on a
future still unfinished `timeoutSecs` after the call. -/
def future_result (timeoutSecs : Nat) (doneAtCall : Bool)
    (outcome : Except String AgentResult) : Except String AgentResult :=
  if doneAtCall then outcome else Except.error ("TimeoutError: " ++ toString timeoutSecs)

/-- Lines 139-143: success update of the progress entry. -/
def completedMark (clock : Nat) (p : TaskProgress) : TaskProgress :=
  { p with status := "completed", progress := 100, end_time := some clock }

/-- Lines 153-158: error update of the progress entry. -/
def errorMark (clock : Nat) (msg : String) (p : TaskProgress) : TaskProgress :=
  { p with status := "error", progress := 0, end_time := some clock, error := some msg }

/-- One iteration of the collection loop (lines 126-160) for the agent whose
future completed: fetch the (already finished) future's result with the
300-second timeout argument, then record success (result map + progress) or
failure (error map + progress). -/
def collectOne (agents : Handles) (stock_code company_name : String)
    (sc : SessionState × Nat) (agent_name : String) : SessionState × Nat :=
  let s := sc.1
  let c := sc.2
  match future_result 300 true
      (_execute_single_agent_with_context agents agent_name stock_code company_name c) with
  | Except.ok result =>
    ({ s with
        parallel_results := some (dictSet (s.parallel_results.getD []) agent_name result),
        parallel_progress :=
          some (dictUpdate (s.parallel_progress.getD []) agent_name (completedMark (c + 1))) },
     c + 2)
  | Except.error e =>
    ({ s with
        parallel_errors := some (dictSet (s.parallel_errors.getD []) agent_name e),
        parallel_progress :=
          some (dictUpdate (s.parallel_progress.getD []) agent_name (errorMark (c + 1) e)) },
     c + 2)

/-- The whole collection loop, draining futures in completion `order`. -/
def collect_fold (agents : Handles) (stock_code company_name : String) :
    List String → SessionState × Nat → SessionState × Nat
  | [], sc => sc
  | a :: rest, sc =>
    collect_fold agents stock_code company_name rest
      (collectOne agents stock_code company_name sc a)

/-- Lines 166-169: `len([... if progress['status'] == 'completed'])`. -/
def countCompleted (s : SessionState) : Nat :=
  ((s.parallel_progress.getD []).filter (fun p => p.2.status = "completed")).length

/-- Lines 76-89 of `execute_agents_parallel`: session-state initialization,
pre-allocation of every configured agent's progress entry, and setting the
started flag; this is the state at the moment the worker pool is created. -/
def preState (config : List String) (s0 : SessionState) : SessionState :=
  let s1 := init_session_state s0
  let s2 := { s1 with
    parallel_progress := some (init_progress_map config (s1.parallel_progress.getD [])) }
  { s2 with parallel_execution_started := some true }

/-- Lines 94-163: submit every configured agent that has a handle, drain the
futures in completion `order`, and set the completed flag. -/
def runEnd (config : List String) (agents : Handles)
    (stock_code company_name : String) (order : List String)
    (s0 : SessionState) (clock : Nat) : SessionState :=
  let s3 := preState config s0
  let mc := submit_fold agents config (s3.parallel_progress.getD [], clock)
  let s4 := { s3 with parallel_progress := some mc.1 }
  let sc5 := collect_fold agents stock_code company_name order (s4, mc.2)
  { sc5.1 with parallel_execution_completed := some true }

/-- The body of the `try:` block of `execute_agents_parallel` (lines 72-174).
`poolFault = some msg` models `ThreadPoolExecutor` construction raising at
line 94 (a genuine scheduler-level exception); the error value carries the
session state at the moment the exception is raised, since `st.session_state`
is shared mutable state visible to the handler. On a fault-free run the body
finishes in state `runEnd ...` and returns `successful_agents >= 5`
(lines 166-174). -/
def tryBody (config : List String) (agents : Handles)
    (stock_code company_name : String) (poolFault : Option String)
    (order : List String) (s0 : SessionState) (clock : Nat) :
    Except (String × SessionState) (SessionState × Bool) :=
  match poolFault with
  | some msg => Except.error (msg, preState config s0)
  | none =>
    let s6 := runEnd config agents stock_code company_name order s0 clock
    Except.ok (s6, decide (5 ≤ countCompleted s6))

/-- `execute_agents_parallel` (lines 69-179): run the `try:` body; the
top-level `except Exception` (lines 176-179) catches any scheduler-level
exception, marks the run completed and returns `False`. The return type
allows an escaping exception (`Except.error`) so that the propagation claims
can be stated; the handler in fact converts every exception to `.ok _ false`. -/
def execute_agents_parallel (config : List String) (agents : Handles)
    (stock_code company_name : String) (poolFault : Option String)
    (order : List String) (s0 : SessionState) (clock : Nat) :
    Except String (SessionState × Bool) :=
  match tryBody config agents stock_code company_name poolFault order s0 clock with
  | Except.ok r => Except.ok r
  | Except.error (_, sAt) =>
    Except.ok ({ sAt with parallel_execution_completed := some true }, false)

/-! ### Run start in the caller (`main.py` lines 421-426) -/

/-- The session-state reset performed by `run_parallel_analysis` immediately
before calling `execute_agents_parallel`: it rewrites the started/completed
flags and empties the results and progress maps, but does not touch
`parallel_errors`. -/
def run_parallel_analysis_reset (s : SessionState) : SessionState :=
  { s with
    parallel_execution_started := some true,
    parallel_execution_completed := some false,
    parallel_results := some [],
    parallel_progress := some [] }

/-! ### State observers used in the theorems -/

def progAt (s : SessionState) (a : String) : Option TaskProgress :=
  dictGet (s.parallel_progress.getD []) a

def progStatus (s : SessionState) (a : String) : Option String :=
  (progAt s a).map TaskProgress.status

def resHas (s : SessionState) (a : String) : Bool :=
  dictHas (s.parallel_results.getD []) a

def errHas (s : SessionState) (a : String) : Bool :=
  dictHas (s.parallel_errors.getD []) a

/-- Final session state of a run, with a fallback for the (never produced)
escaping-exception case. -/
def runStateD (r : Except String (SessionState × Bool)) : SessionState :=
  match r with
  | Except.ok p => p.1
  | Except.error _ => freshSession

/-- Whether the run escaped with an exception. -/
def runIsError (r : Except String (SessionState × Bool)) : Bool :=
  match r with
  | Except.ok _ => false
  | Except.error _ => true

/-- The boolean verdict of a run that returned normally. -/
def runReturn (r : Except String (SessionState × Bool)) : Option Bool :=
  match r with
  | Except.ok p => some p.2
  | Except.error _ => none

/-! ### Lemmas about the dictionary model -/

theorem dictGet_set_self {α : Type} (m : List (String × α)) (k : String) (v : α) :
    dictGet (dictSet m k v) k = some v := by
  induction m with
  | nil => simp [dictSet, dictGet]
  | cons hd t ih =>
    obtain ⟨k', v'⟩ := hd
    by_cases hk : k' = k
    · simp [dictSet, hk, dictGet]
    · simp [dictSet, hk, dictGet, ih]

theorem dictGet_set_ne {α : Type} (m : List (String × α)) (k a : String) (v : α)
    (h : a ≠ k) : dictGet (dictSet m k v) a = dictGet m a := by
  have hka : ¬(k = a) := fun hh => h hh.symm
  induction m with
  | nil => simp [dictSet, dictGet, hka]
  | cons hd t ih =>
    obtain ⟨k', v'⟩ := hd
    by_cases hk : k' = k
    · subst hk
      simp [dictSet, dictGet, hka]
    · simp [dictSet, hk, dictGet, ih]

theorem dictGet_update_self {α : Type} (m : List (String × α)) (k : String) (f : α → α) :
    dictGet (dictUpdate m k f) k = (dictGet m k).map f := by
  induction m with
  | nil => simp [dictUpdate, dictGet]
  | cons hd t ih =>
    obtain ⟨k', v'⟩ := hd
    by_cases hk : k' = k
    · simp [dictUpdate, hk, dictGet]
    · simp [dictUpdate, hk, dictGet, ih]

theorem dictGet_update_ne {α : Type} (m : List (String × α)) (k a : String) (f : α → α)
    (h : a ≠ k) : dictGet (dictUpdate m k f) a = dictGet m a := by
  have hka : ¬(k = a) := fun hh => h hh.symm
  induction m with
  | nil => simp [dictUpdate]
  | cons hd t ih =>
    obtain ⟨k', v'⟩ := hd
    by_cases hk : k' = k
    · subst hk
      simp [dictUpdate, dictGet, hka]
    · simp [dictUpdate, hk, dictGet, ih]

theorem dictUpdate_keys {α : Type} (m : List (String × α)) (k : String) (f : α → α) :
    (dictUpdate m k f).map Prod.fst = m.map Prod.fst := by
  induction m with
  | nil => simp [dictUpdate]
  | cons hd t ih =>
    obtain ⟨k', v'⟩ := hd
    by_cases hk : k' = k
    · simp [dictUpdate, hk]
    · simp [dictUpdate, hk, ih]

theorem dictSet_of_not_mem {α : Type} (m : List (String × α)) (k : String) (v : α)
    (h : k ∉ m.map Prod.fst) : dictSet m k v = m ++ [(k, v)] := by
  induction m with
  | nil => simp [dictSet]
  | cons hd t ih =>
    obtain ⟨k', v'⟩ := hd
    simp only [List.map_cons, List.mem_cons, not_or] at h
    have hk : ¬(k' = k) := fun hh => h.1 hh.symm
    simp [dictSet, hk, ih h.2]

theorem dictGet_eq_none_of_not_mem {α : Type} (m : List (String × α)) (k : String)
    (h : k ∉ m.map Prod.fst) : dictGet m k = none := by
  induction m with
  | nil => rfl
  | cons hd t ih =>
    obtain ⟨k', v'⟩ := hd
    simp only [List.map_cons, List.mem_cons, not_or] at h
    have hk : ¬(k' = k) := fun hh => h.1 hh.symm
    simp [dictGet, hk, ih h.2]

theorem mem_keys_of_dictGet {α : Type} (m : List (String × α)) (k : String) (v : α)
    (h : dictGet m k = some v) : k ∈ m.map Prod.fst := by
  by_contra hmem
  rw [dictGet_eq_none_of_not_mem m k hmem] at h
  exact Option.noConfusion h

theorem dictGet_of_mem_nodup {α : Type} (m : List (String × α)) (k : String) (v : α)
    (hnd : (m.map Prod.fst).Nodup) (hmem : (k, v) ∈ m) : dictGet m k = some v := by
  induction m with
  | nil => cases hmem
  | cons hd t ih =>
    obtain ⟨k', v'⟩ := hd
    simp only [List.map_cons, List.nodup_cons] at hnd
    rcases List.mem_cons.mp hmem with hh | ht
    · have hk : k' = k := congrArg Prod.fst hh.symm
      have hv : v' = v := congrArg Prod.snd hh.symm
      simp [dictGet, hk, hv]
    · have hk : ¬(k' = k) := by
        intro he
        subst he
        exact hnd.1 (List.mem_map.mpr ⟨(k', v), ht, rfl⟩)
      simp [dictGet, hk, ih hnd.2 ht]

/-! ### Lemmas about the progress-initialization loop -/

theorem init_progress_map_eq (config : List String) :
    ∀ m : List (String × TaskProgress), config.Nodup →
    (∀ a ∈ config, a ∉ m.map Prod.fst) →
    init_progress_map config m = m ++ config.map (fun a => (a, waitingProgress)) := by
  induction config with
  | nil =>
    intro m _ _
    simp [init_progress_map]
  | cons a tl ih =>
    intro m hnd hdis
    rw [List.nodup_cons] at hnd
    have ha : a ∉ m.map Prod.fst := hdis a (List.mem_cons_self a tl)
    have hstep : dictSet m a waitingProgress = m ++ [(a, waitingProgress)] :=
      dictSet_of_not_mem m a _ ha
    have hdis' : ∀ b ∈ tl, b ∉ (m ++ [(a, waitingProgress)]).map Prod.fst := by
      intro b hb
      simp only [List.map_append, List.mem_append, List.map_cons, List.map_nil,
        List.mem_singleton, not_or]
      exact ⟨hdis b (List.mem_cons_of_mem a hb), fun he => hnd.1 (he ▸ hb)⟩
    calc init_progress_map (a :: tl) m
        = init_progress_map tl (m ++ [(a, waitingProgress)]) := by
          simp [init_progress_map, hstep]
      _ = (m ++ [(a, waitingProgress)]) ++ tl.map (fun a => (a, waitingProgress)) :=
          ih _ hnd.2 hdis'
      _ = m ++ (a :: tl).map (fun a => (a, waitingProgress)) := by
          simp

theorem init_progress_map_nil_eq (config : List String) (hnd : config.Nodup) :
    init_progress_map config [] = config.map (fun a => (a, waitingProgress)) := by
  simpa using init_progress_map_eq config [] hnd (by simp)

theorem constMap_keys {α : Type} (config : List String) (v : α) :
    (config.map (fun a => (a, v))).map Prod.fst = config := by
  rw [List.map_map]
  exact List.map_congr_left (fun a _ => rfl) |>.trans (List.map_id _)

theorem dictGet_constMap {α : Type} (config : List String) (v : α) (a : String)
    (hnd : config.Nodup) (ha : a ∈ config) :
    dictGet (config.map (fun x => (x, v))) a = some v :=
  dictGet_of_mem_nodup _ a v (by rw [constMap_keys]; exact hnd)
    (List.mem_map.mpr ⟨a, ha, rfl⟩)

/-! ### Lemmas about the submission loop -/

theorem submit_fold_keys (agents : Handles) :
    ∀ (config : List String) (m : List (String × TaskProgress)) (c : Nat),
    ((submit_fold agents config (m, c)).1).map Prod.fst = m.map Prod.fst := by
  intro config
  induction config with
  | nil => intro m c; rfl
  | cons a tl ih =>
    intro m c
    cases ha : dictHas agents a with
    | false => simpa [submit_fold, ha] using ih m c
    | true =>
      have := ih (dictUpdate m a (startingMark c)) (c + 1)
      rw [dictUpdate_keys] at this
      simpa [submit_fold, ha] using this

theorem submit_fold_get_skip (agents : Handles) :
    ∀ (config : List String) (m : List (String × TaskProgress)) (c : Nat) (a : String),
    (a ∉ config ∨ dictHas agents a = false) →
    dictGet ((submit_fold agents config (m, c)).1) a = dictGet m a := by
  intro config
  induction config with
  | nil => intro m c a _; rfl
  | cons b tl ih =>
    intro m c a hskip
    have hskip' : a ∉ tl ∨ dictHas agents a = false :=
      hskip.imp (fun h ha => h (List.mem_cons_of_mem b ha)) id
    cases hb : dictHas agents b with
    | false => simpa [submit_fold, hb] using ih m c a hskip'
    | true =>
      have hab : a ≠ b := by
        intro he
        rcases hskip with hnm | hhas
        · exact hnm (he ▸ List.mem_cons_self b tl)
        · rw [he, hb] at hhas
          cases hhas
      have hmid : dictGet (dictUpdate m b (startingMark c)) a = dictGet m a :=
        dictGet_update_ne m b a _ hab
      have := ih (dictUpdate m b (startingMark c)) (c + 1) a hskip'
      rw [hmid] at this
      simpa [submit_fold, hb] using this

theorem submit_fold_get_hit (agents : Handles) :
    ∀ (config : List String) (m : List (String × TaskProgress)) (c : Nat) (a : String),
    config.Nodup → a ∈ config → dictHas agents a = true →
    ∃ t, dictGet ((submit_fold agents config (m, c)).1) a =
      (dictGet m a).map (startingMark t) := by
  intro config
  induction config with
  | nil => intro m c a _ ha _; cases ha
  | cons b tl ih =>
    intro m c a hnd ha hhas
    rw [List.nodup_cons] at hnd
    by_cases hab : a = b
    · subst hab
      have hskip := submit_fold_get_skip agents tl (dictUpdate m a (startingMark c)) (c + 1) a
        (Or.inl hnd.1)
      refine ⟨c, ?_⟩
      rw [show submit_fold agents (a :: tl) (m, c) =
          submit_fold agents tl (dictUpdate m a (startingMark c), c + 1) from by
        simp [submit_fold, hhas]]
      rw [hskip, dictGet_update_self]
    · have ha' : a ∈ tl := by
        rcases List.mem_cons.mp ha with h | h
        · exact absurd h hab
        · exact h
      cases hb : dictHas agents b with
      | false => simpa [submit_fold, hb] using ih m c a hnd.2 ha' hhas
      | true =>
        obtain ⟨t, ht⟩ := ih (dictUpdate m b (startingMark c)) (c + 1) a hnd.2 ha' hhas
        rw [dictGet_update_ne m b a _ hab] at ht
        exact ⟨t, by simpa [submit_fold, hb] using ht⟩

/-! ### Lemmas about the collection loop -/

theorem future_result_done (t : Nat) (o : Except String AgentResult) :
    future_result t true o = o := rfl

theorem collectOne_progAt_ne (agents : Handles) (sc cn : String)
    (s : SessionState) (c : Nat) (a b : String) (hab : a ≠ b) :
    progAt (collectOne agents sc cn (s, c) b).1 a = progAt s a := by
  cases hres : _execute_single_agent_with_context agents b sc cn c <;>
    simp [collectOne, future_result, hres, progAt, dictGet_update_ne _ _ _ _ hab]

theorem collectOne_resHas_ne (agents : Handles) (sc cn : String)
    (s : SessionState) (c : Nat) (a b : String) (hab : a ≠ b) :
    resHas (collectOne agents sc cn (s, c) b).1 a = resHas s a := by
  cases hres : _execute_single_agent_with_context agents b sc cn c <;>
    simp [collectOne, future_result, hres, resHas, dictHas, dictGet_set_ne _ _ _ _ hab]

theorem collectOne_errHas_ne (agents : Handles) (sc cn : String)
    (s : SessionState) (c : Nat) (a b : String) (hab : a ≠ b) :
    errHas (collectOne agents sc cn (s, c) b).1 a = errHas s a := by
  cases hres : _execute_single_agent_with_context agents b sc cn c <;>
    simp [collectOne, future_result, hres, errHas, dictHas, dictGet_set_ne _ _ _ _ hab]

theorem collectOne_keys (agents : Handles) (sc cn : String)
    (s : SessionState) (c : Nat) (b : String) :
    (((collectOne agents sc cn (s, c) b).1).parallel_progress.getD []).map Prod.fst =
      (s.parallel_progress.getD []).map Prod.fst := by
  cases hres : _execute_single_agent_with_context agents b sc cn c <;>
    simp [collectOne, future_result, hres, dictUpdate_keys]

theorem collectOne_hit (agents : Handles) (sc cn : String)
    (s : SessionState) (c : Nat) (b : String) (p : TaskProgress)
    (hp : progAt s b = some p) :
    ∃ p', progAt (collectOne agents sc cn (s, c) b).1 b = some p' ∧
      p'.end_time.isSome = true ∧
      ((p'.status = "completed" ∧ resHas (collectOne agents sc cn (s, c) b).1 b = true ∧
          errHas (collectOne agents sc cn (s, c) b).1 b = errHas s b) ∨
       (p'.status = "error" ∧ p'.error.isSome = true ∧
          errHas (collectOne agents sc cn (s, c) b).1 b = true ∧
          resHas (collectOne agents sc cn (s, c) b).1 b = resHas s b)) := by
  rw [progAt] at hp
  cases hres : _execute_single_agent_with_context agents b sc cn c with
  | ok r =>
    refine ⟨completedMark (c + 1) p, ?_, rfl, Or.inl ⟨rfl, ?_, ?_⟩⟩
    · simp [collectOne, future_result, hres, progAt, dictGet_update_self, hp, completedMark]
    · simp [collectOne, future_result, hres, resHas, dictHas, dictGet_set_self]
    · simp [collectOne, future_result, hres, errHas]
  | error e =>
    refine ⟨errorMark (c + 1) e p, ?_, rfl, Or.inr ⟨rfl, rfl, ?_, ?_⟩⟩
    · simp [collectOne, future_result, hres, progAt, dictGet_update_self, hp, errorMark]
    · simp [collectOne, future_result, hres, errHas, dictHas, dictGet_set_self]
    · simp [collectOne, future_result, hres, resHas]

theorem collect_fold_spec (agents : Handles) (sc cn : String) :
    ∀ (order : List String), order.Nodup →
    ∀ (s : SessionState) (c : Nat),
    (∀ a, a ∉ order →
       progAt (collect_fold agents sc cn order (s, c)).1 a = progAt s a ∧
       resHas (collect_fold agents sc cn order (s, c)).1 a = resHas s a ∧
       errHas (collect_fold agents sc cn order (s, c)).1 a = errHas s a) ∧
    (∀ a ∈ order, ∀ p, progAt s a = some p →
       ∃ p', progAt (collect_fold agents sc cn order (s, c)).1 a = some p' ∧
         p'.end_time.isSome = true ∧
         ((p'.status = "completed" ∧
             resHas (collect_fold agents sc cn order (s, c)).1 a = true ∧
             errHas (collect_fold agents sc cn order (s, c)).1 a = errHas s a) ∨
          (p'.status = "error" ∧ p'.error.isSome = true ∧
             errHas (collect_fold agents sc cn order (s, c)).1 a = true ∧
             resHas (collect_fold agents sc cn order (s, c)).1 a = resHas s a))) := by
  intro order
  induction order with
  | nil =>
    intro _ s c
    exact ⟨fun a _ => ⟨rfl, rfl, rfl⟩, fun a ha => absurd ha (List.not_mem_nil a)⟩
  | cons b tl ih =>
    intro hnd s c
    rw [List.nodup_cons] at hnd
    obtain ⟨ihframe, ihhit⟩ := ih hnd.2 (collectOne agents sc cn (s, c) b).1
      (collectOne agents sc cn (s, c) b).2
    have hunfold : collect_fold agents sc cn (b :: tl) (s, c) =
        collect_fold agents sc cn tl ((collectOne agents sc cn (s, c) b).1,
          (collectOne agents sc cn (s, c) b).2) := by
      simp [collect_fold]
    constructor
    · intro a ha
      have hab : a ≠ b := fun he => ha (he ▸ List.mem_cons_self b tl)
      have hatl : a ∉ tl := fun h => ha (List.mem_cons_of_mem b h)
      obtain ⟨f1, f2, f3⟩ := ihframe a hatl
      rw [hunfold]
      exact ⟨f1.trans (collectOne_progAt_ne agents sc cn s c a b hab),
        f2.trans (collectOne_resHas_ne agents sc cn s c a b hab),
        f3.trans (collectOne_errHas_ne agents sc cn s c a b hab)⟩
    · intro a ha p hp
      rw [hunfold]
      rcases List.mem_cons.mp ha with hab | hatl
      · subst hab
        obtain ⟨p', hp', hend, hcase⟩ := collectOne_hit agents sc cn s c a p hp
        obtain ⟨f1, f2, f3⟩ := ihframe a hnd.1
        refine ⟨p', f1.trans hp', hend, ?_⟩
        rcases hcase with ⟨h1, h2, h3⟩ | ⟨h1, h2, h3, h4⟩
        · exact Or.inl ⟨h1, f2.trans h2, f3.trans h3⟩
        · exact Or.inr ⟨h1, h2, f3.trans h3, f2.trans h4⟩
      · have hab : a ≠ b := fun he => hnd.1 (he ▸ hatl)
        have hp1 : progAt (collectOne agents sc cn (s, c) b).1 a = some p :=
          (collectOne_progAt_ne agents sc cn s c a b hab).trans hp
        obtain ⟨p', hp', hend, hcase⟩ := ihhit a hatl p hp1
        refine ⟨p', hp', hend, ?_⟩
        rcases hcase with ⟨h1, h2, h3⟩ | ⟨h1, h2, h3, h4⟩
        · exact Or.inl ⟨h1, h2,
            h3.trans (collectOne_errHas_ne agents sc cn s c a b hab)⟩
        · exact Or.inr ⟨h1, h2, h3,
            h4.trans (collectOne_resHas_ne agents sc cn s c a b hab)⟩

theorem collect_fold_keys (agents : Handles) (sc cn : String) :
    ∀ (order : List String) (s : SessionState) (c : Nat),
    (((collect_fold agents sc cn order (s, c)).1).parallel_progress.getD []).map Prod.fst =
      (s.parallel_progress.getD []).map Prod.fst := by
  intro order
  induction order with
  | nil => intro s c; rfl
  | cons b tl ih =>
    intro s c
    have := ih (collectOne agents sc cn (s, c) b).1 (collectOne agents sc cn (s, c) b).2
    rw [this.trans (collectOne_keys agents sc cn s c b) |>.symm]
    simp [collect_fold]

/-! ### Run-level anatomy -/

theorem execute_none_eq (config : List String) (agents : Handles)
    (sc cn : String) (order : List String) (s0 : SessionState) (clock : Nat) :
    execute_agents_parallel config agents sc cn none order s0 clock =
      Except.ok (runEnd config agents sc cn order s0 clock,
        decide (5 ≤ countCompleted (runEnd config agents sc cn order s0 clock))) := rfl

theorem execute_fault_eq (config : List String) (agents : Handles)
    (sc cn msg : String) (order : List String) (s0 : SessionState) (clock : Nat) :
    execute_agents_parallel config agents sc cn (some msg) order s0 clock =
      Except.ok ({ preState config s0 with parallel_execution_completed := some true },
        false) := rfl

/-- Anatomy of a fault-free run started on a session whose progress map is
fresh: the final progress map is keyed exactly by the catalog; every
submitted agent ends in a terminal state with the matching map updated and
the sibling map untouched at its key; every configured agent without a handle
is left `waiting` with both maps untouched at its key. -/
theorem runEnd_spec (config : List String) (agents : Handles) (sc cn : String)
    (order : List String) (s0 : SessionState) (clock : Nat)
    (hnd : config.Nodup)
    (hperm : order.Perm (submittedAgents config agents))
    (hp : s0.parallel_progress.getD [] = []) :
    (((runEnd config agents sc cn order s0 clock).parallel_progress.getD []).map
        Prod.fst = config) ∧
    (∀ a ∈ submittedAgents config agents,
      ∃ p, progAt (runEnd config agents sc cn order s0 clock) a = some p ∧
        p.end_time.isSome = true ∧
        ((p.status = "completed" ∧
            resHas (runEnd config agents sc cn order s0 clock) a = true ∧
            errHas (runEnd config agents sc cn order s0 clock) a =
              dictHas (s0.parallel_errors.getD []) a) ∨
         (p.status = "error" ∧ p.error.isSome = true ∧
            errHas (runEnd config agents sc cn order s0 clock) a = true ∧
            resHas (runEnd config agents sc cn order s0 clock) a =
              dictHas (s0.parallel_results.getD []) a))) ∧
    (∀ a ∈ config, a ∉ submittedAgents config agents →
      progAt (runEnd config agents sc cn order s0 clock) a = some waitingProgress ∧
      resHas (runEnd config agents sc cn order s0 clock) a =
        dictHas (s0.parallel_results.getD []) a ∧
      errHas (runEnd config agents sc cn order s0 clock) a =
        dictHas (s0.parallel_errors.getD []) a) := by
  -- the pre-allocated progress map
  have hpre : (preState config s0).parallel_progress =
      some (config.map (fun a => (a, waitingProgress))) := by
    show some (init_progress_map config (s0.parallel_progress.getD [])) = _
    rw [hp, init_progress_map_nil_eq config hnd]
  -- the submitted-state progress map
  set mc := submit_fold agents config
    ((preState config s0).parallel_progress.getD [], clock) with hmc
  have hgetD : (preState config s0).parallel_progress.getD [] =
      config.map (fun a => (a, waitingProgress)) := by rw [hpre]; rfl
  -- keys after submission
  have hkeys_mid : mc.1.map Prod.fst = config := by
    rw [hmc, hgetD, submit_fold_keys, constMap_keys]
  -- session state after submission
  set s4 : SessionState :=
    { preState config s0 with parallel_progress := some mc.1 } with hs4
  have hs4prog : ∀ a, progAt s4 a = dictGet mc.1 a := fun a => rfl
  have hs4res : ∀ a, resHas s4 a = dictHas (s0.parallel_results.getD []) a :=
    fun a => rfl
  have hs4err : ∀ a, errHas s4 a = dictHas (s0.parallel_errors.getD []) a :=
    fun a => rfl
  -- the submitted agents are exactly the handled configured agents
  have hsub_nodup : (submittedAgents config agents).Nodup := hnd.filter _
  have hord_nodup : order.Nodup := hperm.nodup_iff.mpr hsub_nodup
  -- the run ends in the collected state with the completed flag set
  have hrun : runEnd config agents sc cn order s0 clock =
      { (collect_fold agents sc cn order (s4, mc.2)).1 with
          parallel_execution_completed := some true } := rfl
  obtain ⟨hframe, hhit⟩ := collect_fold_spec agents sc cn order hord_nodup s4 mc.2
  have hfin_prog : ∀ a,
      progAt (runEnd config agents sc cn order s0 clock) a =
        progAt (collect_fold agents sc cn order (s4, mc.2)).1 a := fun a => rfl
  have hfin_res : ∀ a,
      resHas (runEnd config agents sc cn order s0 clock) a =
        resHas (collect_fold agents sc cn order (s4, mc.2)).1 a := fun a => rfl
  have hfin_err : ∀ a,
      errHas (runEnd config agents sc cn order s0 clock) a =
        errHas (collect_fold agents sc cn order (s4, mc.2)).1 a := fun a => rfl
  refine ⟨?_, ?_, ?_⟩
  · -- final keys = catalog
    have : ((runEnd config agents sc cn order s0 clock).parallel_progress.getD []) =
        ((collect_fold agents sc cn order (s4, mc.2)).1.parallel_progress.getD []) := by
      rw [hrun]
    rw [this, collect_fold_keys]
    exact hkeys_mid
  · -- submitted agents end terminal
    intro a ha
    have hain : a ∈ config := List.mem_of_mem_filter ha
    have hahas : dictHas agents a = true := List.of_mem_filter ha
    obtain ⟨t, ht⟩ := submit_fold_get_hit agents config
      ((preState config s0).parallel_progress.getD []) clock a hnd hain hahas
    have hp4 : progAt s4 a = some (startingMark t waitingProgress) := by
      rw [hs4prog a, hmc, ht, hgetD, dictGet_constMap config _ a hnd hain]
      rfl
    have haord : a ∈ order := hperm.mem_iff.mpr ha
    obtain ⟨p', hp', hend, hcase⟩ := hhit a haord _ hp4
    refine ⟨p', (hfin_prog a).trans hp', hend, ?_⟩
    rcases hcase with ⟨h1, h2, h3⟩ | ⟨h1, h2, h3, h4⟩
    · exact Or.inl ⟨h1, (hfin_res a).trans h2,
        ((hfin_err a).trans h3).trans (hs4err a)⟩
    · exact Or.inr ⟨h1, h2, (hfin_err a).trans h3,
        ((hfin_res a).trans h4).trans (hs4res a)⟩
  · -- unsubmitted configured agents stay waiting
    intro a hain hnot
    have hahas : dictHas agents a = false := by
      cases hh : dictHas agents a with
      | false => rfl
      | true => exact absurd (List.mem_filter.mpr ⟨hain, hh⟩) hnot
    have hmid : dictGet mc.1 a = some waitingProgress := by
      rw [hmc, submit_fold_get_skip agents config _ clock a (Or.inr hahas), hgetD,
        dictGet_constMap config _ a hnd hain]
    have haord : a ∉ order := fun h => hnot (hperm.mem_iff.mp h)
    obtain ⟨f1, f2, f3⟩ := hframe a haord
    refine ⟨?_, ?_, ?_⟩
    · rw [hfin_prog a, f1, hs4prog, hmid]
    · rw [hfin_res a, f2, hs4res]
    · rw [hfin_err a, f3, hs4err]

/-! ### Concrete agent-handle scenarios used by witnesses and counterexamples -/

/-- A handle whose invocation returns one short normal message. -/
def okBeh : String → InvokeOutcome := fun _ => InvokeOutcome.returns (some ["ok"])

/-- Every configured agent succeeds. -/
def allOkHandles : Handles := agentConfig.map (fun a => (a, ⟨okBeh, 1⟩))

/-- Every configured agent succeeds except `esg_expert`, whose invocation
raises `boom`. -/
def esgFailHandles : Handles :=
  agentConfig.map (fun a =>
    (a, if a = "esg_expert" then ⟨fun _ => InvokeOutcome.raises "boom", 1⟩ else ⟨okBeh, 1⟩))

/-- A handle whose invocation returns a message whose content is the empty
string. -/
def emptyHandle : AgentHandle := ⟨fun _ => InvokeOutcome.returns (some [""]), 1⟩

/-- Two handles: a fast one (10 s) and one whose invocation takes 301 s —
past the 300-second ceiling — and then returns normally. -/
def slowHandles : Handles :=
  [("context_expert", ⟨fun _ => InvokeOutcome.returns (some ["fast ok"]), 10⟩),
   ("sentiment_expert", ⟨fun _ => InvokeOutcome.returns (some ["slow ok"]), 301⟩)]

/-! ### Claim C1 -/

/-- Claim C1: `execute_agents_parallel` (with the engine's 8-agent catalog and
no scheduler-level fault) returns normally, and its boolean verdict is `true`
if and only if at least 5 entries of the final progress map have status
`completed` — for any handle map, hence any mix of successes and failures
among the registered agents, and any completion order. -/
theorem c1_quorum_law (agents : Handles) (sc cn : String) (order : List String)
    (s0 : SessionState) (clock : Nat) :
    ∃ s b, execute_agents_parallel agentConfig agents sc cn none order s0 clock =
        Except.ok (s, b) ∧ (b = true ↔ 5 ≤ countCompleted s) := by
  refine ⟨runEnd agentConfig agents sc cn order s0 clock, _,
    execute_none_eq agentConfig agents sc cn order s0 clock, ?_⟩
  exact decide_eq_true_iff

/-! ### Claim C2 -/

/-- Claim C2 (amended): no exception ever escapes `execute_agents_parallel`:
the top-level `except Exception` handler converts every scheduler-level
exception (modelled by `poolFault`) into a normal `False` return, and
task-level failures are recorded locally during collection; the function
always returns `Except.ok`. -/
theorem c2_amended_no_exception_escapes (config : List String) (agents : Handles)
    (sc cn : String) (poolFault : Option String) (order : List String)
    (s0 : SessionState) (clock : Nat) :
    ∃ s b, execute_agents_parallel config agents sc cn poolFault order s0 clock =
      Except.ok (s, b) := by
  cases poolFault with
  | none => exact ⟨_, _, execute_none_eq config agents sc cn order s0 clock⟩
  | some msg => exact ⟨_, _, execute_fault_eq config agents sc cn msg order s0 clock⟩

/-- Claim C2 (counterexample): a genuine scheduler-level exception — a pool
setup failure raised inside `executeAll` — does NOT propagate to the caller:
the run reports no error and returns the verdict `false` instead. -/
theorem c2_counterexample :
    runIsError (execute_agents_parallel agentConfig [] "005930" "테스트"
      (some "pool setup failure") [] freshSession 0) = false ∧
    runReturn (execute_agents_parallel agentConfig [] "005930" "테스트"
      (some "pool setup failure") [] freshSession 0) = some false :=
  ⟨rfl, rfl⟩

/-! ### Claim C5 -/

/-- Claim C5: the completion-marker step is idempotent: for every agent whose
completion marker is non-empty and every output text already containing that
marker, the marker-append step leaves the text unchanged, so its length is
unchanged as well. -/
theorem c5_marker_idempotent (agent_name content : String)
    (_h1 : _get_completion_signal agent_name ≠ "")
    (h2 : strContains content (_get_completion_signal agent_name) = true) :
    markerStep agent_name content = content ∧
    (markerStep agent_name content).length = content.length := by
  have heq : markerStep agent_name content = content := by
    rw [markerStep]
    rw [if_neg]
    intro hcond
    rw [h2] at hcond
    exact Bool.noConfusion hcond.2
  exact ⟨heq, by rw [heq]⟩

/-- Witness for C5 at a concrete agent and text containing the marker. -/
theorem c5_witness :
    _get_completion_signal "esg_expert" ≠ "" ∧
    strContains "A ESG_ANALYSIS_COMPLETE B" (_get_completion_signal "esg_expert") = true ∧
    markerStep "esg_expert" "A ESG_ANALYSIS_COMPLETE B" = "A ESG_ANALYSIS_COMPLETE B" ∧
    (markerStep "esg_expert" "A ESG_ANALYSIS_COMPLETE B").length =
      ("A ESG_ANALYSIS_COMPLETE B" : String).length :=
  ⟨by decide, by decide,
    (c5_marker_idempotent "esg_expert" "A ESG_ANALYSIS_COMPLETE B" (by decide) (by decide)).1,
    (c5_marker_idempotent "esg_expert" "A ESG_ANALYSIS_COMPLETE B" (by decide) (by decide)).2⟩

/-! ### Claim C9 -/

/-- Claim C9 (amended): building the request text for an agent id absent from
the registry does not fail: `_create_agent_request` falls back to the generic
default request string (`base_requests.get(agent_name, default)`), so a
request string is always returned and no `UnknownAgent` error exists. -/
theorem c9_amended_unknown_agent_default (agent_name stock_code company_name : String)
    (h : agent_name ∉ agentConfig) :
    _create_agent_request agent_name stock_code company_name =
      "종목 " ++ stock_code ++ "에 대한 분석을 수행해주세요." := by
  simp only [agentConfig, List.mem_cons, List.not_mem_nil, or_false, not_or] at h
  obtain ⟨h1, h2, h3, h4, h5, h6, h7, h8⟩ := h
  rw [_create_agent_request]
  rw [if_neg h1, if_neg h2, if_neg h3, if_neg h4, if_neg h5, if_neg h6, if_neg h7, if_neg h8]

/-- Claim C9 (counterexample): for the absent agent id `ghost_expert` the
request builder returns the default request string rather than failing. -/
theorem c9_counterexample :
    "ghost_expert" ∉ agentConfig ∧
    _create_agent_request "ghost_expert" "005930" "ACME" =
      "종목 005930에 대한 분석을 수행해주세요." :=
  ⟨by decide, rfl⟩

/-- Witness for the amended C9 at a concrete absent agent id. -/
theorem c9_witness :
    "unknown_agent" ∉ agentConfig ∧
    _create_agent_request "unknown_agent" "000660" "하이닉스" =
      "종목 " ++ "000660" ++ "에 대한 분석을 수행해주세요." :=
  ⟨by decide, c9_amended_unknown_agent_default "unknown_agent" "000660" "하이닉스" (by decide)⟩

/-! ### Claim C3 -/

/-- Claim C3 (amended): a handle whose invocation returns a non-empty
`messages` list whose (last) content is the empty string is NOT treated as an
empty response: the task executor returns a success result whose content is
the marker step applied to the empty string (i.e. the bare completion marker
appended to nothing); only a missing or empty `messages` list raises the
empty-response error. -/
theorem c3_amended_empty_content_success (agents : Handles) (h : AgentHandle)
    (a sc cn : String) (clock : Nat)
    (hget : dictGet agents a = some h)
    (hbeh : h.behavior (_create_agent_request a sc cn) =
      InvokeOutcome.returns (some [""])) :
    _execute_single_agent_with_context agents a sc cn clock =
      Except.ok
        { agent_name := a, content := markerStep a "",
          token_count := pyTokenCount (markerStep a ""),
          execution_time := clock, status := "success" } := by
  rw [_execute_single_agent_with_context, hget]
  simp only [hbeh]
  rfl

/-- Claim C3 (counterexample): for `context_expert` with a handle returning a
single empty-string message, the executor records a SUCCESS whose content is
the completion marker appended to the stripped empty string, and in a full
run the task ends `completed` with no entry in the error map — not `Errored`
with an `EmptyResponse` cause. -/
theorem c3_counterexample :
    _execute_single_agent_with_context [("context_expert", emptyHandle)]
        "context_expert" "005930" "테스트" 0 =
      Except.ok
        { agent_name := "context_expert",
          content := "\n\nMARKET_CONTEXT_ANALYSIS_COMPLETE", token_count := 1,
          execution_time := 0, status := "success" } ∧
    progStatus (runStateD (execute_agents_parallel agentConfig
        [("context_expert", emptyHandle)] "005930" "테스트" none
        ["context_expert"] freshSession 0)) "context_expert" = some "completed" ∧
    errHas (runStateD (execute_agents_parallel agentConfig
        [("context_expert", emptyHandle)] "005930" "테스트" none
        ["context_expert"] freshSession 0)) "context_expert" = false :=
  ⟨rfl, rfl, rfl⟩

/-- Witness for the amended C3 at a concrete handle map. -/
theorem c3_witness :
    dictGet [("context_expert", emptyHandle)] "context_expert" = some emptyHandle ∧
    emptyHandle.behavior (_create_agent_request "context_expert" "005930" "한화") =
      InvokeOutcome.returns (some [""]) ∧
    _execute_single_agent_with_context [("context_expert", emptyHandle)]
        "context_expert" "005930" "한화" 7 =
      Except.ok
        { agent_name := "context_expert",
          content := markerStep "context_expert" "",
          token_count := pyTokenCount (markerStep "context_expert" ""),
          execution_time := 7, status := "success" } :=
  ⟨rfl, rfl,
    c3_amended_empty_content_success [("context_expert", emptyHandle)] emptyHandle
      "context_expert" "005930" "한화" 7 rfl rfl⟩

/-! ### Claim C4 -/

/-- Claim C4 (code behaviour at the failing input): `sentiment_expert`'s
invocation takes 301 seconds — beyond the 300-second ceiling — and then
returns normally. Because `future.result(timeout=300)` is only ever called on
futures already yielded by `as_completed` (which yields only finished
futures), the timeout never fires: the over-long task is recorded
`completed` with no timeout error, while the fast sibling is also collected
normally. The claimed behaviour (record `Errored` with a timeout string)
never happens. -/
theorem c4_timeout_never_fires :
    (dictGet slowHandles "sentiment_expert").map AgentHandle.duration = some 301 ∧
    300 < 301 ∧
    progStatus (runStateD (execute_agents_parallel agentConfig slowHandles
        "005930" "테스트" none ["context_expert", "sentiment_expert"]
        freshSession 0)) "sentiment_expert" = some "completed" ∧
    errHas (runStateD (execute_agents_parallel agentConfig slowHandles
        "005930" "테스트" none ["context_expert", "sentiment_expert"]
        freshSession 0)) "sentiment_expert" = false ∧
    progStatus (runStateD (execute_agents_parallel agentConfig slowHandles
        "005930" "테스트" none ["context_expert", "sentiment_expert"]
        freshSession 0)) "context_expert" = some "completed" :=
  ⟨rfl, by decide, rfl, rfl, rfl⟩

/-! ### Claim C6 -/

/-- Claim C6 (amended): at run start `run_parallel_analysis` resets only
three of the four run-state collections — the results map, the progress map
and the started/completed flags; the errors map is left untouched (and
`initialize_session_state` also preserves any existing value), so stale
error entries from a prior run remain observable in the new run. -/
theorem c6_amended_reset_preserves_errors (s : SessionState) :
    (run_parallel_analysis_reset s).parallel_results = some [] ∧
    (run_parallel_analysis_reset s).parallel_progress = some [] ∧
    (run_parallel_analysis_reset s).parallel_execution_started = some true ∧
    (run_parallel_analysis_reset s).parallel_execution_completed = some false ∧
    (run_parallel_analysis_reset s).parallel_errors = s.parallel_errors ∧
    (init_session_state (run_parallel_analysis_reset s)).parallel_errors =
      some (s.parallel_errors.getD []) :=
  ⟨rfl, rfl, rfl, rfl, rfl, rfl⟩

/-- Claim C6 (counterexample): a first run in which `esg_expert` fails leaves
`("esg_expert", "boom")` in the errors map; after the caller's run-start
reset and a second run in which every agent succeeds, the stale error keyed
by `esg_expert` is still observable while the same agent's progress says
`completed`. -/
theorem c6_counterexample :
    dictGet ((runStateD (execute_agents_parallel agentConfig esgFailHandles
        "005930" "회사" none agentConfig freshSession 0)).parallel_errors.getD [])
      "esg_expert" = some "boom" ∧
    dictGet ((runStateD (execute_agents_parallel agentConfig allOkHandles
        "005930" "회사" none agentConfig
        (run_parallel_analysis_reset (runStateD (execute_agents_parallel agentConfig
          esgFailHandles "005930" "회사" none agentConfig freshSession 0)))
        0)).parallel_errors.getD []) "esg_expert" = some "boom" ∧
    progStatus (runStateD (execute_agents_parallel agentConfig allOkHandles
        "005930" "회사" none agentConfig
        (run_parallel_analysis_reset (runStateD (execute_agents_parallel agentConfig
          esgFailHandles "005930" "회사" none agentConfig freshSession 0)))
        0)) "esg_expert" = some "completed" :=
  ⟨rfl, rfl, rfl⟩

/-! ### Claim C7 -/

/-- Claim C7: for every duplicate-free catalog of N registered agents and
every handle map providing all N of them (any behaviours, any completion
order), a fault-free run on a fresh progress map terminates returning
normally, and the final per-agent progress map has exactly the N catalog
agents as keys, each in a terminal state (`completed` or `error`). -/
theorem c7_all_agents_terminal (config : List String) (agents : Handles)
    (sc cn : String) (order : List String) (s0 : SessionState) (clock : Nat)
    (hnd : config.Nodup)
    (hall : ∀ a ∈ config, dictHas agents a = true)
    (hperm : order.Perm (submittedAgents config agents))
    (hp : s0.parallel_progress.getD [] = []) :
    ∃ s b, execute_agents_parallel config agents sc cn none order s0 clock =
        Except.ok (s, b) ∧
      (s.parallel_progress.getD []).map Prod.fst = config ∧
      ∀ e ∈ s.parallel_progress.getD [],
        e.2.status = "completed" ∨ e.2.status = "error" := by
  obtain ⟨hkeys, hsub, _⟩ := runEnd_spec config agents sc cn order s0 clock hnd hperm hp
  have hsubeq : submittedAgents config agents = config :=
    List.filter_eq_self.mpr hall
  refine ⟨runEnd config agents sc cn order s0 clock, _,
    execute_none_eq config agents sc cn order s0 clock, hkeys, ?_⟩
  rintro ⟨k, v⟩ he
  have hkmem : k ∈ config := by
    rw [← hkeys]
    exact List.mem_map.mpr ⟨(k, v), he, rfl⟩
  have hknodup :
      (((runEnd config agents sc cn order s0 clock).parallel_progress.getD []).map
        Prod.fst).Nodup := by
    rw [hkeys]; exact hnd
  have hget : dictGet
      ((runEnd config agents sc cn order s0 clock).parallel_progress.getD []) k =
      some v := dictGet_of_mem_nodup _ k v hknodup he
  obtain ⟨p, hp0, _, hcase⟩ := hsub k (hsubeq.symm ▸ hkmem)
  have hpv : p = v := Option.some.inj (hp0.symm.trans hget)
  rcases hcase with ⟨h1, _, _⟩ | ⟨h1, _, _, _⟩
  · exact Or.inl (hpv ▸ h1)
  · exact Or.inr (hpv ▸ h1)

/-- Witness for C7: the 8-agent catalog with all handles present and all
agents succeeding, collected in catalog order from a brand-new session. -/
theorem c7_witness :
    ∃ s b, execute_agents_parallel agentConfig allOkHandles "005930" "삼성전자"
        none agentConfig freshSession 0 = Except.ok (s, b) ∧
      (s.parallel_progress.getD []).map Prod.fst = agentConfig ∧
      ∀ e ∈ s.parallel_progress.getD [],
        e.2.status = "completed" ∨ e.2.status = "error" :=
  c7_all_agents_terminal agentConfig allOkHandles "005930" "삼성전자" agentConfig
    freshSession 0 (by decide) (by decide) (by decide) rfl

/-! ### Claim C8 -/

/-- Claim C8: at the end of a fault-free run started on a fresh progress map,
every progress entry with status `completed` has a non-null end timestamp and
an entry in the result map, and every entry with status `error` has a
non-null error message (and a non-null end timestamp). Holds for any handle
map and any completion order — the result/errors maps need not start empty. -/
theorem c8_terminal_state_invariant (config : List String) (agents : Handles)
    (sc cn : String) (order : List String) (s0 : SessionState) (clock : Nat)
    (hnd : config.Nodup)
    (hperm : order.Perm (submittedAgents config agents))
    (hp : s0.parallel_progress.getD [] = []) :
    ∃ s b, execute_agents_parallel config agents sc cn none order s0 clock =
        Except.ok (s, b) ∧
      ∀ a p, dictGet (s.parallel_progress.getD []) a = some p →
        (p.status = "completed" → p.end_time.isSome = true ∧ resHas s a = true) ∧
        (p.status = "error" → p.error.isSome = true ∧ p.end_time.isSome = true) := by
  obtain ⟨hkeys, hsub, hwait⟩ := runEnd_spec config agents sc cn order s0 clock hnd hperm hp
  refine ⟨runEnd config agents sc cn order s0 clock, _,
    execute_none_eq config agents sc cn order s0 clock, ?_⟩
  intro a p hget
  have hkmem : a ∈ config := by
    rw [← hkeys]
    exact mem_keys_of_dictGet _ a p hget
  by_cases hsubm : a ∈ submittedAgents config agents
  · obtain ⟨p0, hp0, hend, hcase⟩ := hsub a hsubm
    have hpv : p0 = p := Option.some.inj (hp0.symm.trans hget)
    subst hpv
    rcases hcase with ⟨h1, h2, _⟩ | ⟨h1, h2, _, _⟩
    · exact ⟨fun _ => ⟨hend, h2⟩,
        fun hc => absurd (h1.symm.trans hc) (by decide)⟩
    · exact ⟨fun hc => absurd (h1.symm.trans hc) (by decide),
        fun _ => ⟨h2, hend⟩⟩
  · obtain ⟨hw, _, _⟩ := hwait a hkmem hsubm
    have hpv : waitingProgress = p := Option.some.inj (hw.symm.trans hget)
    subst hpv
    exact ⟨fun hc => absurd hc (by decide), fun hc => absurd hc (by decide)⟩

/-- Witness for C8: the 8-agent catalog where `esg_expert` fails and the
other agents succeed, collected in catalog order from a brand-new session. -/
theorem c8_witness :
    ∃ s b, execute_agents_parallel agentConfig esgFailHandles "005930" "엘지"
        none agentConfig freshSession 3 = Except.ok (s, b) ∧
      ∀ a p, dictGet (s.parallel_progress.getD []) a = some p →
        (p.status = "completed" → p.end_time.isSome = true ∧ resHas s a = true) ∧
        (p.status = "error" → p.error.isSome = true ∧ p.end_time.isSome = true) :=
  c8_terminal_state_invariant agentConfig esgFailHandles "005930" "엘지" agentConfig
    freshSession 3 (by decide) (by decide) rfl

/-! ### Claim C10 -/

/-- Claim C10: starting from fresh (empty) results and errors maps and a
fresh progress map, after a fault-free `execute_agents_parallel` run every
submitted agent ends with an entry in exactly one of the results map (exactly
when its status is `completed`) or the errors map (exactly when its status is
`error`) — never both, never neither. -/
theorem c10_result_error_partition (config : List String) (agents : Handles)
    (sc cn : String) (order : List String) (s0 : SessionState) (clock : Nat)
    (hnd : config.Nodup)
    (hperm : order.Perm (submittedAgents config agents))
    (hp : s0.parallel_progress.getD [] = [])
    (hr : s0.parallel_results.getD [] = [])
    (he : s0.parallel_errors.getD [] = []) :
    ∃ s b, execute_agents_parallel config agents sc cn none order s0 clock =
        Except.ok (s, b) ∧
      ∀ a ∈ submittedAgents config agents,
        (progStatus s a = some "completed" ∧ resHas s a = true ∧ errHas s a = false) ∨
        (progStatus s a = some "error" ∧ errHas s a = true ∧ resHas s a = false) := by
  obtain ⟨_, hsub, _⟩ := runEnd_spec config agents sc cn order s0 clock hnd hperm hp
  refine ⟨runEnd config agents sc cn order s0 clock, _,
    execute_none_eq config agents sc cn order s0 clock, ?_⟩
  intro a ha
  obtain ⟨p, hp0, _, hcase⟩ := hsub a ha
  have hResNone : dictHas (s0.parallel_results.getD []) a = false := by rw [hr]; rfl
  have hErrNone : dictHas (s0.parallel_errors.getD []) a = false := by rw [he]; rfl
  rcases hcase with ⟨h1, h2, h3⟩ | ⟨h1, h2, h3, h4⟩
  · refine Or.inl ⟨?_, h2, h3.trans hErrNone⟩
    rw [progStatus, hp0]
    simp [h1]
  · refine Or.inr ⟨?_, h3, h4.trans hResNone⟩
    rw [progStatus, hp0]
    simp [h1]

/-- Witness for C10: the 8-agent catalog where `esg_expert` fails, collected
in catalog order from a brand-new session. -/
theorem c10_witness :
    ∃ s b, execute_agents_parallel agentConfig esgFailHandles "000150" "두산"
        none agentConfig freshSession 0 = Except.ok (s, b) ∧
      ∀ a ∈ submittedAgents agentConfig esgFailHandles,
        (progStatus s a = some "completed" ∧ resHas s a = true ∧ errHas s a = false) ∨
        (progStatus s a = some "error" ∧ errHas s a = true ∧ resHas s a = false) :=
  c10_result_error_partition agentConfig esgFailHandles "000150" "두산" agentConfig
    freshSession 0 (by decide) (by decide) rfl rfl rfl
